import Mathlib

/-!
Shallow embedding of the CSS++ parser (src/CSS.h) and proofs about the
claims of its specification.

The tokenizer `Lexer::tokenize` is a while loop over an index into the
input; every iteration consumes at least one character, so the loop makes
at most `input.length` iterations.  `tokenizeF` is the loop with an
explicit iteration budget (first argument) and `tokenize` runs it with the
budget `input.length`, which is always sufficient
(theorem `tokenizeF_eq_tokenize`).

The parser is a mutable object (token list, cursor `position`, the
`stylesheet` map, the error flag and last error); it is embedded as
explicit state passing over `PState`.  `std::vector::at` throws
`std::out_of_range` for an index that is out of bounds; since every parser
method is `noexcept`, such a throw terminates the program.  The embedding
returns `none` (for straight-line code) or `Res.crashed` (for the loops)
at exactly those accesses.  `size_t` arithmetic wraps: `position - 1` at
`position = 0` is a huge index, hence out of range; `atPrev` models this.
The two while loops (`parse` and `parseDeclarationBlock`) need not
terminate, so they take a fuel argument; `Res.fuelOut` means the loop was
still running after `fuel` iterations, and a result that is `Res.fuelOut`
for every fuel is a loop that runs forever.

`std::unordered_map` is embedded as an association list with unique keys;
`upsert` is `operator[]` plus assignment (insert-or-overwrite).
-/

namespace CSS

/-- Character class of the C `isspace` in the default locale, restricted to
ASCII: space, tab, newline, vertical tab, form feed, carriage return. -/
def isSpaceC (c : Char) : Bool :=
  c == ' ' || c == '\t' || c == '\n' || c == '\x0b' || c == '\x0c' || c == '\r'

/-- Character class consumed by `Lexer::lexIdentifier`: `isalnum` or hyphen. -/
def isIdentChar (c : Char) : Bool :=
  c.isAlphanum || c == '-'

/-- Token kinds of `Parser::TokenType` in src/CSS.h. -/
inductive TokenType where
  | Identifier
  | Number
  | String
  | Colon
  | Semicolon
  | BraceOpen
  | BraceClose
  | HexColor
  | Unknown
  | EndOfFile
deriving DecidableEq

/-- A token (`Parser::Token`): a kind and the lexeme text. -/
structure Token where
  type : TokenType
  value : String
deriving DecidableEq

/-- Comment skipping in `tokenize`: after the opening slash-star has been
consumed, advance past the first star-slash (consuming it); an unterminated
comment consumes the rest of the input.  Mirrors the inner while loop of
the comment branch, where `peek` past the end yields a NUL that never
matches a slash. -/
def dropToCommentClose : List Char → List Char
  | [] => []
  | c :: cs => if c = '*' ∧ cs.head? = some '/' then cs.tail else dropToCommentClose cs

/-- One-pass tokenizer `Lexer::tokenize` with an explicit iteration budget.
Each branch mirrors one branch of the character dispatch in src/CSS.h, in
source order.  In the identifier and number branches the first character
itself satisfies the consumed class, so the lexeme is the head consed onto
the `takeWhile` of the tail.  In the string branch the token text is
`substr(start, position - start - 1)`: when a closing quote was found that
is exactly the body; when the input ended first, `position - start - 1` is
one less than the number of remaining characters (wrapping to a huge,
clamped count when the body is empty), so the last character is dropped.
In the hex-color branch the candidate body is everything up to the next
semicolon, which is not consumed. -/
def tokenizeF : Nat → List Char → List Token
  | _, [] => [Token.mk TokenType.EndOfFile ""]
  | 0, _ :: _ => [Token.mk TokenType.EndOfFile ""]
  | fuel + 1, c :: cs =>
    if isSpaceC c then
      tokenizeF fuel (cs.dropWhile isSpaceC)
    else if c.isAlpha || c == '-' then
      Token.mk TokenType.Identifier (String.mk (c :: cs.takeWhile isIdentChar)) ::
        tokenizeF fuel (cs.dropWhile isIdentChar)
    else if c.isDigit then
      Token.mk TokenType.Number (String.mk (c :: cs.takeWhile Char.isDigit)) ::
        tokenizeF fuel (cs.dropWhile Char.isDigit)
    else if c == '\"' then
      match cs.dropWhile (fun ch => ch != '\"') with
      | [] =>
        Token.mk TokenType.String (String.mk (cs.takeWhile (fun ch => ch != '\"')).dropLast) ::
          tokenizeF fuel []
      | _ :: rest =>
        Token.mk TokenType.String (String.mk (cs.takeWhile (fun ch => ch != '\"'))) ::
          tokenizeF fuel rest
    else if c == ':' then
      Token.mk TokenType.Colon ":" :: tokenizeF fuel cs
    else if c == ';' then
      Token.mk TokenType.Semicolon ";" :: tokenizeF fuel cs
    else if c == '{' then
      Token.mk TokenType.BraceOpen "\x7b" :: tokenizeF fuel cs
    else if c == '}' then
      Token.mk TokenType.BraceClose "\x7d" :: tokenizeF fuel cs
    else if c == '#' then
      (if (cs.takeWhile (fun ch => ch != ';')).length = 6 then
        Token.mk TokenType.HexColor (String.mk (cs.takeWhile (fun ch => ch != ';')))
      else Token.mk TokenType.Unknown "<InvalidColor>") ::
        tokenizeF fuel (cs.dropWhile (fun ch => ch != ';'))
    else if c == '/' && cs.head? == some '*' then
      tokenizeF fuel (dropToCommentClose cs.tail)
    else
      Token.mk TokenType.Unknown (String.mk [c]) :: tokenizeF fuel cs

/-- The tokenizer: the loop with the always-sufficient budget `cs.length`. -/
def tokenize (cs : List Char) : List Token :=
  tokenizeF cs.length cs

/-- Property table of one selector: property name to value text. -/
abbrev PropertyTable := List (String × String)

/-- The parse result: selector name to its property table. -/
abbrev Stylesheet := List (String × PropertyTable)

/-- Insert-or-overwrite into an association list with unique keys: the
embedding of assignment through `std::unordered_map::operator[]`. -/
def upsert {α : Type} (k : String) (v : α) : List (String × α) → List (String × α)
  | [] => [(k, v)]
  | (k', v') :: rest => if k' = k then (k, v) :: rest else (k', v') :: upsert k v rest

/-- Key lookup in an association list: the embedding of map lookup. -/
def alookup {α : Type} (k : String) : List (String × α) → Option α
  | [] => none
  | (k', v) :: rest => if k' = k then some v else alookup k rest

/-- The store step of `parseDeclaration`:
`stylesheet[selector][property] = value` — fetch (or default-construct) the
property table of the selector, upsert the property, upsert the table. -/
def setProp (sel prop v : String) (sheet : Stylesheet) : Stylesheet :=
  upsert sel (upsert prop v ((alookup sel sheet).getD [])) sheet

/-- The `ParseError` record: message and the whole source text. -/
structure ParseError where
  errMsg : String := ""
  errLine : String := ""
deriving DecidableEq

/-- The mutable state of a `Parser` object: the source (kept by the lexer
and echoed into errors), the token list produced at construction, the
cursor, the stylesheet being built, the sticky error flag and the last
error. -/
structure PState where
  input : String
  tokens : List Token
  position : Nat
  stylesheet : Stylesheet
  hadError : Bool
  lastError : ParseError
deriving DecidableEq

/-- Result of running a parser loop with some fuel: it finished in the
given budget, or the program crashed (an out-of-range `at` under
`noexcept`), or the budget was exhausted with the loop still running. -/
inductive Res where
  | done (s : PState)
  | crashed
  | fuelOut
deriving DecidableEq

/-- `Parser::makeError`: record the message with the whole source text as
context, replacing any previous error, and set the sticky flag. -/
def makeError (msg : String) (s : PState) : PState :=
  { s with lastError := ParseError.mk msg s.input, hadError := true }

/-- `Parser::isAtEnd`: the cursor is past the token list (checked first,
short-circuiting so `at` is not reached) or rests on the end-of-input
marker. -/
def isAtEnd (s : PState) : Bool :=
  match s.tokens[s.position]? with
  | none => true
  | some t => decide (t.type = TokenType.EndOfFile)

/-- Access `tokens.at(position - 1)`.  At `position = 0` the `size_t`
subtraction wraps to a huge index, so `at` throws (`none`); likewise when
`position - 1` is past the end. -/
def atPrev (s : PState) : Option Token :=
  if s.position = 0 then none else s.tokens[s.position - 1]?

/-- `Parser::match`: return false without moving when at end (cursor past
the list, or on the end marker) or when the current token is not of the
expected type; otherwise consume exactly one token (`advance`, whose
returned token is discarded and whose `at` is in bounds here). -/
def mtch (t : TokenType) (s : PState) : Bool × PState :=
  match s.tokens[s.position]? with
  | none => (false, s)
  | some tok =>
    if tok.type = TokenType.EndOfFile then (false, s)
    else if tok.type ≠ t then (false, s)
    else (true, { s with position := s.position + 1 })

/-- `Parser::parseSelector`: an optional identifier; an absent selector is
the empty name. -/
def parseSelector (s : PState) : Option (String × PState) :=
  let r := mtch TokenType.Identifier s
  if r.1 then (atPrev r.2).map (fun tok => (tok.value, r.2))
  else some ("", r.2)

/-- `Parser::parseValue`: try Number, String, Identifier, HexColor in that
order (short-circuit, each failed try leaving the state unchanged); on a
hit the value is the text of the just-consumed token, otherwise record the
no-value error and return the empty value. -/
def parseValue (s : PState) : Option (String × PState) :=
  let r1 := mtch TokenType.Number s
  if r1.1 then (atPrev r1.2).map (fun tok => (tok.value, r1.2))
  else
    let r2 := mtch TokenType.String r1.2
    if r2.1 then (atPrev r2.2).map (fun tok => (tok.value, r2.2))
    else
      let r3 := mtch TokenType.Identifier r2.2
      if r3.1 then (atPrev r3.2).map (fun tok => (tok.value, r3.2))
      else
        let r4 := mtch TokenType.HexColor r3.2
        if r4.1 then (atPrev r4.2).map (fun tok => (tok.value, r4.2))
        else some ("", makeError "Expected a value after '<property>:'." r4.2)

/-- The unconditional final statement of `parseDeclaration`:
`stylesheet[selector][property] = value`. -/
def declStore (sel prop v : String) (s : PState) : PState :=
  { s with stylesheet := setProp sel prop v s.stylesheet }

/-- Tail of `Parser::parseDeclaration` after the property name has been
read: require the colon, parse the value, require the semicolon (each
failure recording an error and consuming nothing), then store. -/
def declFinish (sel prop : String) (s1 : PState) : Option PState :=
  let r2 := mtch TokenType.Colon s1
  let s2 := if r2.1 then r2.2 else makeError "Expected ':' after property name." r2.2
  match parseValue s2 with
  | none => none
  | some (v, s3) =>
    let r3 := mtch TokenType.Semicolon s3
    let s4 := if r3.1 then r3.2 else makeError "Expected ';' after property value." r3.2
    some (declStore sel prop v s4)

/-- `Parser::parseDeclaration`: require the property name (an error if the
match fails), then read `tokens.at(position - 1)` as the property — the
just-consumed identifier on success, the token consumed before this
declaration on failure, and a crash when nothing was ever consumed. -/
def parseDeclaration (sel : String) (s : PState) : Option PState :=
  let r1 := mtch TokenType.Identifier s
  let s1 := if r1.1 then r1.2 else makeError "Expected property name." r1.2
  match atPrev s1 with
  | none => none
  | some ptok => declFinish sel ptok.value s1

/-- `Parser::parseDeclarationBlock`: while the current token (read by
`peek`, which crashes past the end of the list) is not a closing brace and
the end marker has not been reached, parse one declaration.  The loop does
not consult the error flag.  The two fuel cases carry the same loop
condition; with no fuel left a loop that would iterate again reports
`Res.fuelOut`. -/
def parseDeclarationBlock (sel : String) : Nat → PState → Res
  | 0, s =>
    match s.tokens[s.position]? with
    | none => Res.crashed
    | some t =>
      if t.type ≠ TokenType.BraceClose ∧ isAtEnd s = false then Res.fuelOut
      else Res.done s
  | fuel + 1, s =>
    match s.tokens[s.position]? with
    | none => Res.crashed
    | some t =>
      if t.type ≠ TokenType.BraceClose ∧ isAtEnd s = false then
        match parseDeclaration sel s with
        | none => Res.crashed
        | some s' => parseDeclarationBlock sel fuel s'
      else Res.done s

/-- Closing step of `Parser::parseRule`: require the closing brace, else
record the missing-brace error. -/
def ruleClose (s3 : PState) : PState :=
  let r := mtch TokenType.BraceClose s3
  if r.1 then r.2 else makeError "Expected '\x7d' after declaration block." r.2

/-- Propagation after the declaration block of a rule: when the block loop
finished, run the closing-brace step; a crash or exhausted fuel inside the
block is the result of the whole rule. -/
def ruleFinish (r : Res) : Res :=
  match r with
  | Res.done s3 => Res.done (ruleClose s3)
  | r => r

/-- `Parser::parseRule`: optional selector, required opening brace (an
error if absent), the declaration block, required closing brace. -/
def parseRule (fuel : Nat) (s : PState) : Res :=
  match parseSelector s with
  | none => Res.crashed
  | some (sel, s1) =>
    let r1 := mtch TokenType.BraceOpen s1
    let s2 := if r1.1 then r1.2 else makeError "Expected '\x7b' after selector." r1.2
    ruleFinish (parseDeclarationBlock sel fuel s2)

/-- `Parser::parse`: while input remains and no error has been flagged,
parse one rule.  The two fuel cases carry the same loop condition; with no
fuel left a loop that would iterate again reports `Res.fuelOut`. -/
def parseLoop : Nat → PState → Res
  | 0, s =>
    if isAtEnd s = false ∧ s.hadError = false then Res.fuelOut
    else Res.done s
  | fuel + 1, s =>
    if isAtEnd s = false ∧ s.hadError = false then
      match parseRule fuel s with
      | Res.done s' => parseLoop fuel s'
      | r => r
    else Res.done s

/-- State of a freshly constructed `Parser`: the constructor tokenizes the
whole input; cursor at zero, empty stylesheet, no error. -/
def initState (css : String) : PState :=
  { input := css, tokens := tokenize css.toList, position := 0, stylesheet := [],
    hadError := false, lastError := {} }

/-- Construct a parser on the source text and run `parse()` with the given
loop budget. -/
def parseCss (fuel : Nat) (css : String) : Res :=
  parseLoop fuel (initState css)

/-- Observable outcome of a completed parse: the error flag, the retained
last error message and the stylesheet. -/
def parseOutcome (fuel : Nat) (css : String) : Option (Bool × String × Stylesheet) :=
  match parseCss fuel css with
  | Res.done s => some (s.hadError, s.lastError.errMsg, s.stylesheet)
  | _ => none

/-! Concrete inputs and parser states used by the claim theorems, witnesses
and counterexamples. -/

/-- Source text of three tokens: an identifier and two opening braces. -/
def c1input : String := "a \x7b \x7b"

/-- Token list of `c1input`. -/
def c1tokens : List Token :=
  [Token.mk TokenType.Identifier "a", Token.mk TokenType.BraceOpen "\x7b",
   Token.mk TokenType.BraceOpen "\x7b", Token.mk TokenType.EndOfFile ""]

/-- Parser state on `c1input` after the selector and the opening brace have
been consumed, at the top of the declaration-block loop. -/
def c1s2 : PState :=
  { input := c1input, tokens := c1tokens, position := 2, stylesheet := [],
    hadError := false, lastError := {} }

/-- The state the declaration-block loop on `c1input` reaches after one
iteration and never leaves: the cursor still rests on the second opening
brace, which no step of `parseDeclaration` consumes, so `parseDeclaration`
maps this state to itself. -/
def c1stuck : PState :=
  { input := c1input, tokens := c1tokens, position := 2,
    stylesheet := [("a", [("\x7b", "")])], hadError := true,
    lastError := ParseError.mk "Expected ';' after property value." c1input }

/-- Source text of the hex-color scenario of the specification. -/
def c3input : String := "a \x7b c: #fff; \x7d"

/-- Token list of `c3input`: the three-character hex body lexes to an
Unknown token. -/
def c3tokens : List Token :=
  [Token.mk TokenType.Identifier "a", Token.mk TokenType.BraceOpen "\x7b",
   Token.mk TokenType.Identifier "c", Token.mk TokenType.Colon ":",
   Token.mk TokenType.Unknown "<InvalidColor>", Token.mk TokenType.Semicolon ";",
   Token.mk TokenType.BraceClose "\x7d", Token.mk TokenType.EndOfFile ""]

/-- Parser state on `c3input` after the selector and the opening brace. -/
def c3s2 : PState :=
  { input := c3input, tokens := c3tokens, position := 2, stylesheet := [],
    hadError := false, lastError := {} }

/-- The state the declaration-block loop on `c3input` reaches after two
iterations and never leaves: the cursor rests on the Unknown token, which
no step of `parseDeclaration` consumes, so `parseDeclaration` maps this
state to itself. -/
def c3stuck : PState :=
  { input := c3input, tokens := c3tokens, position := 4,
    stylesheet := [("a", [("c", ""), (":", "")])], hadError := true,
    lastError := ParseError.mk "Expected ';' after property value." c3input }

/-- A parser state whose error flag is already set. -/
def c7demo : PState :=
  { input := "", tokens := [Token.mk TokenType.EndOfFile ""], position := 0,
    stylesheet := [], hadError := true, lastError := {} }

/-- A parser state resting on an identifier token. -/
def c8demo : PState :=
  { input := "x", tokens := [Token.mk TokenType.Identifier "x", Token.mk TokenType.EndOfFile ""],
    position := 0, stylesheet := [], hadError := false, lastError := {} }

/-- A one-selector stylesheet. -/
def c9sheet : Stylesheet := [("a", [("x", "1")])]

/-- The parser state reached on input `:` when `parseDeclaration` is first
entered: nothing has been consumed, so the property read
`tokens.at(position - 1)` faults. -/
def c10cex : PState :=
  { input := ":", tokens := [Token.mk TokenType.Colon ":", Token.mk TokenType.EndOfFile ""],
    position := 0, stylesheet := [], hadError := false, lastError := {} }

/-! Helper lemmas about the tokenizer. -/

theorem tokenizeF_nil (fuel : Nat) : tokenizeF fuel [] = [Token.mk TokenType.EndOfFile ""] := by
  cases fuel <;> rfl

theorem dropToCommentClose_length_le (l : List Char) :
    (dropToCommentClose l).length ≤ l.length := by
  induction l with
  | nil => simp [dropToCommentClose]
  | cons c cs ih =>
    simp only [dropToCommentClose]
    split
    · have h := List.length_tail cs
      simp only [List.length_cons]
      omega
    · simp only [List.length_cons]
      omega

theorem length_dropWhile_le (p : Char → Bool) (l : List Char) :
    (l.dropWhile p).length ≤ l.length :=
  (List.dropWhile_suffix p).sublist.length_le

theorem tokenizeF_succ_cons (fuel : Nat) (c : Char) (cs : List Char) :
    tokenizeF (fuel + 1) (c :: cs) =
    (if isSpaceC c then
      tokenizeF fuel (cs.dropWhile isSpaceC)
    else if c.isAlpha || c == '-' then
      Token.mk TokenType.Identifier (String.mk (c :: cs.takeWhile isIdentChar)) ::
        tokenizeF fuel (cs.dropWhile isIdentChar)
    else if c.isDigit then
      Token.mk TokenType.Number (String.mk (c :: cs.takeWhile Char.isDigit)) ::
        tokenizeF fuel (cs.dropWhile Char.isDigit)
    else if c == '\"' then
      match cs.dropWhile (fun ch => ch != '\"') with
      | [] =>
        Token.mk TokenType.String (String.mk (cs.takeWhile (fun ch => ch != '\"')).dropLast) ::
          tokenizeF fuel []
      | _ :: rest =>
        Token.mk TokenType.String (String.mk (cs.takeWhile (fun ch => ch != '\"'))) ::
          tokenizeF fuel rest
    else if c == ':' then
      Token.mk TokenType.Colon ":" :: tokenizeF fuel cs
    else if c == ';' then
      Token.mk TokenType.Semicolon ";" :: tokenizeF fuel cs
    else if c == '{' then
      Token.mk TokenType.BraceOpen "\x7b" :: tokenizeF fuel cs
    else if c == '}' then
      Token.mk TokenType.BraceClose "\x7d" :: tokenizeF fuel cs
    else if c == '#' then
      (if (cs.takeWhile (fun ch => ch != ';')).length = 6 then
        Token.mk TokenType.HexColor (String.mk (cs.takeWhile (fun ch => ch != ';')))
      else Token.mk TokenType.Unknown "<InvalidColor>") ::
        tokenizeF fuel (cs.dropWhile (fun ch => ch != ';'))
    else if c == '/' && cs.head? == some '*' then
      tokenizeF fuel (dropToCommentClose cs.tail)
    else
      Token.mk TokenType.Unknown (String.mk [c]) :: tokenizeF fuel cs) := rfl

set_option maxHeartbeats 2000000 in
theorem tokenizeF_agree :
    ∀ (n f₁ f₂ : Nat) (cs : List Char), cs.length ≤ n → cs.length ≤ f₁ → cs.length ≤ f₂ →
      tokenizeF f₁ cs = tokenizeF f₂ cs := by
  intro n
  induction n with
  | zero =>
    intro f₁ f₂ cs hn _ _
    match cs with
    | [] => rw [tokenizeF_nil, tokenizeF_nil]
  | succ n ih =>
    intro f₁ f₂ cs hn h₁ h₂
    match cs with
    | [] => rw [tokenizeF_nil, tokenizeF_nil]
    | c :: cs' =>
      have hcn : cs'.length + 1 ≤ n + 1 := by simpa using hn
      have hc1 : cs'.length + 1 ≤ f₁ := by simpa using h₁
      have hc2 : cs'.length + 1 ≤ f₂ := by simpa using h₂
      obtain ⟨g₁, rfl⟩ : ∃ g, f₁ = g + 1 := ⟨f₁ - 1, by omega⟩
      obtain ⟨g₂, rfl⟩ : ∃ g, f₂ = g + 1 := ⟨f₂ - 1, by omega⟩
      have ihcs : tokenizeF g₁ cs' = tokenizeF g₂ cs' :=
        ih g₁ g₂ cs' (by omega) (by omega) (by omega)
      rw [tokenizeF_succ_cons, tokenizeF_succ_cons]
      by_cases hsp : isSpaceC c = true
      · rw [if_pos hsp, if_pos hsp]
        exact ih g₁ g₂ (cs'.dropWhile isSpaceC)
          (by have := length_dropWhile_le isSpaceC cs'; omega)
          (by have := length_dropWhile_le isSpaceC cs'; omega)
          (by have := length_dropWhile_le isSpaceC cs'; omega)
      rw [if_neg hsp, if_neg hsp]
      by_cases hid : (c.isAlpha || c == '-') = true
      · rw [if_pos hid, if_pos hid]
        exact congrArg _ (ih g₁ g₂ (cs'.dropWhile isIdentChar)
          (by have := length_dropWhile_le isIdentChar cs'; omega)
          (by have := length_dropWhile_le isIdentChar cs'; omega)
          (by have := length_dropWhile_le isIdentChar cs'; omega))
      rw [if_neg hid, if_neg hid]
      by_cases hdig : c.isDigit = true
      · rw [if_pos hdig, if_pos hdig]
        exact congrArg _ (ih g₁ g₂ (cs'.dropWhile Char.isDigit)
          (by have := length_dropWhile_le Char.isDigit cs'; omega)
          (by have := length_dropWhile_le Char.isDigit cs'; omega)
          (by have := length_dropWhile_le Char.isDigit cs'; omega))
      rw [if_neg hdig, if_neg hdig]
      by_cases hq : (c == '\"') = true
      · rw [if_pos hq, if_pos hq]
        cases hdw : cs'.dropWhile (fun ch => ch != '\"') with
        | nil => exact congrArg _ ((tokenizeF_nil g₁).trans (tokenizeF_nil g₂).symm)
        | cons hd rest =>
          have hr : rest.length + 1 ≤ cs'.length := by
            have := length_dropWhile_le (fun ch => ch != '\"') cs'
            rw [hdw] at this
            simpa using this
          exact congrArg _ (ih g₁ g₂ rest (by omega) (by omega) (by omega))
      rw [if_neg hq, if_neg hq]
      by_cases hcol : (c == ':') = true
      · rw [if_pos hcol, if_pos hcol, ihcs]
      rw [if_neg hcol, if_neg hcol]
      by_cases hsem : (c == ';') = true
      · rw [if_pos hsem, if_pos hsem, ihcs]
      rw [if_neg hsem, if_neg hsem]
      by_cases hbo : (c == '{') = true
      · rw [if_pos hbo, if_pos hbo, ihcs]
      rw [if_neg hbo, if_neg hbo]
      by_cases hbc : (c == '}') = true
      · rw [if_pos hbc, if_pos hbc, ihcs]
      rw [if_neg hbc, if_neg hbc]
      by_cases hhash : (c == '#') = true
      · rw [if_pos hhash, if_pos hhash]
        exact congrArg _ (ih g₁ g₂ (cs'.dropWhile (fun ch => ch != ';'))
          (by have := length_dropWhile_le (fun ch => ch != ';') cs'; omega)
          (by have := length_dropWhile_le (fun ch => ch != ';') cs'; omega)
          (by have := length_dropWhile_le (fun ch => ch != ';') cs'; omega))
      rw [if_neg hhash, if_neg hhash]
      by_cases hcom : (c == '/' && cs'.head? == some '*') = true
      · rw [if_pos hcom, if_pos hcom]
        exact ih g₁ g₂ (dropToCommentClose cs'.tail)
          (by have ha := dropToCommentClose_length_le cs'.tail
              have hb := List.length_tail cs'; omega)
          (by have ha := dropToCommentClose_length_le cs'.tail
              have hb := List.length_tail cs'; omega)
          (by have ha := dropToCommentClose_length_le cs'.tail
              have hb := List.length_tail cs'; omega)
      rw [if_neg hcom, if_neg hcom, ihcs]

theorem tokenizeF_eq_tokenize (fuel : Nat) (cs : List Char) (h : cs.length ≤ fuel) :
    tokenizeF fuel cs = tokenize cs :=
  tokenizeF_agree cs.length fuel cs.length cs le_rfl h le_rfl

theorem dropWhile_no_quote (cs : List Char) (h : '\"' ∉ cs) :
    cs.dropWhile (fun ch => ch != '\"') = [] := by
  rw [List.dropWhile_eq_nil_iff]
  intro x hx
  simp only [bne_iff_ne, ne_eq]
  exact fun he => h (he ▸ hx)

theorem takeWhile_no_quote (cs : List Char) (h : '\"' ∉ cs) :
    cs.takeWhile (fun ch => ch != '\"') = cs := by
  rw [List.takeWhile_eq_self_iff]
  intro x hx
  simp only [bne_iff_ne, ne_eq]
  exact fun he => h (he ▸ hx)

theorem dropWhile_append_quote (pre post : List Char) (h : '\"' ∉ pre) :
    (pre ++ '\"' :: post).dropWhile (fun ch => ch != '\"') = '\"' :: post := by
  induction pre with
  | nil => simp [List.dropWhile_cons]
  | cons a pre' ih =>
    have ha : a ≠ '\"' := fun hh => h (hh ▸ List.mem_cons_self a pre')
    have hpre : '\"' ∉ pre' := fun hm => h (List.mem_cons_of_mem a hm)
    rw [List.cons_append, List.dropWhile_cons, if_pos (by simpa using ha)]
    exact ih hpre

theorem takeWhile_append_quote (pre post : List Char) (h : '\"' ∉ pre) :
    (pre ++ '\"' :: post).takeWhile (fun ch => ch != '\"') = pre := by
  induction pre with
  | nil => simp [List.takeWhile_cons]
  | cons a pre' ih =>
    have ha : a ≠ '\"' := fun hh => h (hh ▸ List.mem_cons_self a pre')
    have hpre : '\"' ∉ pre' := fun hm => h (List.mem_cons_of_mem a hm)
    rw [List.cons_append, List.takeWhile_cons, if_pos (by simpa using ha)]
    rw [ih hpre]

theorem tokenize_hash_step (cs : List Char) :
    tokenize ('#' :: cs) =
      (if (cs.takeWhile (fun ch => ch != ';')).length = 6 then
        Token.mk TokenType.HexColor (String.mk (cs.takeWhile (fun ch => ch != ';')))
      else Token.mk TokenType.Unknown "<InvalidColor>") ::
        tokenizeF cs.length (cs.dropWhile (fun ch => ch != ';')) := rfl

theorem tokenize_quote_step (cs : List Char) :
    tokenize ('\"' :: cs) =
      (match cs.dropWhile (fun ch => ch != '\"') with
      | [] =>
        Token.mk TokenType.String (String.mk (cs.takeWhile (fun ch => ch != '\"')).dropLast) ::
          tokenizeF cs.length []
      | _ :: rest =>
        Token.mk TokenType.String (String.mk (cs.takeWhile (fun ch => ch != '\"'))) ::
          tokenizeF cs.length rest) := rfl

/-- C4: at a pound sign the tokenizer takes every following character up to
the next semicolon, or to the end of the input, as the candidate body; when
that body has exactly six characters the produced token is a HexColor
holding exactly those characters, with no check that they are hex digits,
and otherwise it is an Unknown token holding the literal text
InvalidColor in angle brackets.  The semicolon itself is not consumed. -/
theorem c4_hex_color_token (cs : List Char) :
    tokenize ('#' :: cs) =
      (if (cs.takeWhile (fun ch => ch != ';')).length = 6 then
        Token.mk TokenType.HexColor (String.mk (cs.takeWhile (fun ch => ch != ';')))
      else Token.mk TokenType.Unknown "<InvalidColor>") ::
        tokenize (cs.dropWhile (fun ch => ch != ';')) := by
  rw [tokenize_hash_step]
  exact congrArg _ (tokenizeF_eq_tokenize cs.length _ (length_dropWhile_le _ cs))

/-- C5 (amended): a double quote starts a String token.  When a closing
quote exists, the token text is exactly the characters strictly between
the two quotes and scanning resumes after the closing quote.  When no
closing quote exists, the scan consumes to the end of the input with no
error, but the token text is the remaining characters with the last one
dropped — the substr count is computed as though a closing quote had been
skipped — rather than all of them as the claim states. -/
theorem c5_string_token_amended (cs : List Char) :
    ('\"' ∉ cs → tokenize ('\"' :: cs) =
      [Token.mk TokenType.String (String.mk cs.dropLast), Token.mk TokenType.EndOfFile ""])
    ∧ (∀ pre post, cs = pre ++ '\"' :: post → '\"' ∉ pre →
        tokenize ('\"' :: cs) =
          Token.mk TokenType.String (String.mk pre) :: tokenize post) := by
  constructor
  · intro h
    rw [tokenize_quote_step, dropWhile_no_quote cs h, takeWhile_no_quote cs h, tokenizeF_nil]
  · intro pre post hcs hpre
    subst hcs
    rw [tokenize_quote_step, dropWhile_append_quote pre post hpre,
      takeWhile_append_quote pre post hpre]
    exact congrArg _ (tokenizeF_eq_tokenize _ _ (by simp [List.length_append]; omega))

/-- C5 counterexample: on the unterminated input consisting of a double
quote followed by the three characters abc, the produced String token
holds the text ab, not the claimed text abc reaching to the end of the
input. -/
theorem c5_counterexample :
    tokenize ('\"' :: "abc".toList) =
      [Token.mk TokenType.String "ab", Token.mk TokenType.EndOfFile ""] ∧
    ("ab" : String) ≠ "abc" := by
  decide

/-! Helper lemmas about the parser. -/

theorem makeError_position (msg : String) (s : PState) :
    (makeError msg s).position = s.position := rfl

theorem makeError_tokens (msg : String) (s : PState) :
    (makeError msg s).tokens = s.tokens := rfl

theorem makeError_stylesheet (msg : String) (s : PState) :
    (makeError msg s).stylesheet = s.stylesheet := rfl

theorem parseLoop_zero (s : PState) :
    parseLoop 0 s =
      (if isAtEnd s = false ∧ s.hadError = false then Res.fuelOut else Res.done s) := rfl

theorem parseLoop_succ (fuel : Nat) (s : PState) :
    parseLoop (fuel + 1) s =
      (if isAtEnd s = false ∧ s.hadError = false then
        match parseRule fuel s with
        | Res.done s' => parseLoop fuel s'
        | r => r
      else Res.done s) := rfl

theorem mtch_cases (t : TokenType) (s : PState) :
    (∃ tok, s.tokens[s.position]? = some tok ∧ tok.type = t ∧
        tok.type ≠ TokenType.EndOfFile ∧
        mtch t s = (true, { s with position := s.position + 1 })) ∨
      mtch t s = (false, s) := by
  rcases h : s.tokens[s.position]? with _ | tok
  · right
    simp [mtch, h]
  · by_cases h1 : tok.type = TokenType.EndOfFile
    · right
      simp [mtch, h, h1]
    · by_cases h2 : tok.type = t
      · have h1' : ¬t = TokenType.EndOfFile := h2 ▸ h1
        exact Or.inl ⟨tok, rfl, h2, h1, by simp [mtch, h, h1, h1', h2]⟩
      · right
        simp [mtch, h, h1, h2]

theorem parseValue_spec (s : PState) :
    ∃ v s', parseValue s = some (v, s') ∧ s'.stylesheet = s.stylesheet ∧
      s'.tokens = s.tokens := by
  rcases mtch_cases TokenType.Number s with ⟨tok, h, ht, hne, heq⟩ | heq
  · refine ⟨tok.value, { s with position := s.position + 1 }, ?_, rfl, rfl⟩
    simp [parseValue, heq, atPrev, h]
  · rcases mtch_cases TokenType.String s with ⟨tok, h, ht, hne, heq2⟩ | heq2
    · refine ⟨tok.value, { s with position := s.position + 1 }, ?_, rfl, rfl⟩
      simp [parseValue, heq, heq2, atPrev, h]
    · rcases mtch_cases TokenType.Identifier s with ⟨tok, h, ht, hne, heq3⟩ | heq3
      · refine ⟨tok.value, { s with position := s.position + 1 }, ?_, rfl, rfl⟩
        simp [parseValue, heq, heq2, heq3, atPrev, h]
      · rcases mtch_cases TokenType.HexColor s with ⟨tok, h, ht, hne, heq4⟩ | heq4
        · refine ⟨tok.value, { s with position := s.position + 1 }, ?_, rfl, rfl⟩
          simp [parseValue, heq, heq2, heq3, heq4, atPrev, h]
        · refine ⟨"", makeError "Expected a value after '<property>:'." s, ?_, rfl, rfl⟩
          simp [parseValue, heq, heq2, heq3, heq4]

theorem declFinish_spec (sel prop : String) (s1 : PState) :
    ∃ v s', declFinish sel prop s1 = some s' ∧
      s'.stylesheet = setProp sel prop v s1.stylesheet := by
  rcases mtch_cases TokenType.Colon s1 with ⟨tok, h, ht, hne, heq⟩ | heq
  · obtain ⟨v, s3, hpv, hsheet, htoks⟩ :=
      parseValue_spec { s1 with position := s1.position + 1 }
    rcases mtch_cases TokenType.Semicolon s3 with ⟨tok2, h2, ht2, hne2, heq2⟩ | heq2
    · refine ⟨v, declStore sel prop v { s3 with position := s3.position + 1 }, ?_, ?_⟩
      · simp [declFinish, heq, hpv, heq2]
      · simp [declStore, hsheet]
    · refine ⟨v,
        declStore sel prop v (makeError "Expected ';' after property value." s3), ?_, ?_⟩
      · simp [declFinish, heq, hpv, heq2]
      · simp [declStore, makeError_stylesheet, hsheet]
  · obtain ⟨v, s3, hpv, hsheet, htoks⟩ :=
      parseValue_spec (makeError "Expected ':' after property name." s1)
    rcases mtch_cases TokenType.Semicolon s3 with ⟨tok2, h2, ht2, hne2, heq2⟩ | heq2
    · refine ⟨v, declStore sel prop v { s3 with position := s3.position + 1 }, ?_, ?_⟩
      · simp [declFinish, heq, hpv, heq2]
      · simp [declStore, hsheet, makeError_stylesheet]
    · refine ⟨v,
        declStore sel prop v (makeError "Expected ';' after property value." s3), ?_, ?_⟩
      · simp [declFinish, heq, hpv, heq2]
      · simp [declStore, makeError_stylesheet, hsheet]

theorem alookup_upsert_self {α : Type} (k : String) (v : α) (l : List (String × α)) :
    alookup k (upsert k v l) = some v := by
  induction l with
  | nil => simp [upsert, alookup]
  | cons kv rest ih =>
    obtain ⟨k', v'⟩ := kv
    by_cases h : k' = k
    · simp [upsert, alookup, h]
    · simp [upsert, alookup, h, ih]

theorem alookup_upsert_ne {α : Type} (k k' : String) (v : α) (l : List (String × α))
    (h : k' ≠ k) : alookup k' (upsert k v l) = alookup k' l := by
  induction l with
  | nil => simp [upsert, alookup, Ne.symm h]
  | cons kv rest ih =>
    obtain ⟨k'', v''⟩ := kv
    by_cases h2 : k'' = k
    · subst h2
      simp [upsert, alookup, Ne.symm h]
    · by_cases h3 : k'' = k'
      · subst h3
        simp [upsert, alookup, h2]
      · simp [upsert, alookup, h2, h3, ih]

theorem mem_keys_upsert {α : Type} (a k : String) (v : α) (l : List (String × α)) :
    a ∈ (upsert k v l).map Prod.fst ↔ a = k ∨ a ∈ l.map Prod.fst := by
  induction l with
  | nil => simp [upsert]
  | cons kv rest ih =>
    obtain ⟨k', v'⟩ := kv
    by_cases h : k' = k
    · subst h
      simp [upsert]
      try tauto
    · simp [upsert, h, ih]
      try tauto

theorem nodup_keys_upsert {α : Type} (k : String) (v : α) (l : List (String × α))
    (h : (l.map Prod.fst).Nodup) : ((upsert k v l).map Prod.fst).Nodup := by
  induction l with
  | nil => simp [upsert]
  | cons kv rest ih =>
    obtain ⟨k', v'⟩ := kv
    simp only [List.map_cons, List.nodup_cons] at h
    by_cases hk : k' = k
    · subst hk
      simpa [upsert] using h
    · simp only [upsert, if_neg hk, List.map_cons, List.nodup_cons]
      refine ⟨?_, ih h.2⟩
      rw [mem_keys_upsert]
      push_neg
      exact ⟨hk, h.1⟩

theorem alookup_setProp_self (sel prop v : String) (sheet : Stylesheet) :
    alookup sel (setProp sel prop v sheet) =
      some (upsert prop v ((alookup sel sheet).getD [])) :=
  alookup_upsert_self sel (upsert prop v ((alookup sel sheet).getD [])) sheet

/-! The claim theorems. -/

/-- C1: refuted — parse does not terminate on every input.  On the source
text of `c1input` (an identifier followed by two opening braces) the
declaration-block loop reaches a state whose lookahead is an opening
brace; no step of `parseDeclaration` consumes that token and the loop
ignores the error flag, so for every iteration budget the run is still
inside the loop and a single call never returns. -/
theorem c1_parse_runs_forever (fuel : Nat) : parseCss fuel c1input = Res.fuelOut := by
  match fuel with
  | 0 => rfl
  | 1 => rfl
  | (g + 2) =>
    have hblock : ∀ k, parseDeclarationBlock "a" k c1stuck = Res.fuelOut := by
      intro k
      induction k with
      | zero => rfl
      | succ k ih => exact ih
    have hb : parseDeclarationBlock "a" (g + 1) c1s2 = Res.fuelOut := hblock g
    have hrule : parseRule (g + 1) (initState c1input) = Res.fuelOut := by
      show ruleFinish (parseDeclarationBlock "a" (g + 1) c1s2) = Res.fuelOut
      rw [hb]
      rfl
    show parseLoop (g + 2) (initState c1input) = Res.fuelOut
    rw [parseLoop_succ, if_pos (by decide), hrule]

/-- C2: refuted — parsing is not crash free.  On the input consisting of a
single colon, the very first declaration is entered with nothing consumed;
the property read `tokens.at(position - 1)` wraps to a huge index and
throws inside a noexcept member, terminating the program, which the
embedding reports as `Res.crashed` for every sufficient budget. -/
theorem c2_crash_on_colon (fuel : Nat) : parseCss (fuel + 2) ":" = Res.crashed := rfl

/-- C3: refuted — on the specification scenario input of `c3input` the
parse never completes at all.  The malformed hex body lexes to an Unknown
token; `parseValue` records the expected-value error but the following
semicolon check overwrites it, and since no step of `parseDeclaration`
consumes the Unknown token, the declaration-block loop runs forever
instead of returning with the claimed message. -/
theorem c3_hex_scenario_diverges (fuel : Nat) : parseCss fuel c3input = Res.fuelOut := by
  match fuel with
  | 0 => rfl
  | 1 => rfl
  | 2 => rfl
  | (g + 3) =>
    have hblock : ∀ k, parseDeclarationBlock "a" k c3stuck = Res.fuelOut := by
      intro k
      induction k with
      | zero => rfl
      | succ k ih => exact ih
    have hb : parseDeclarationBlock "a" (g + 2) c3s2 = Res.fuelOut := hblock g
    have hrule : parseRule (g + 2) (initState c3input) = Res.fuelOut := by
      show ruleFinish (parseDeclarationBlock "a" (g + 2) c3s2) = Res.fuelOut
      rw [hb]
      rfl
    show parseLoop (g + 3) (initState c3input) = Res.fuelOut
    rw [parseLoop_succ, if_pos (by decide), hrule]

/-- C6: parsing the truncated input (selector, opening brace, one complete
declaration, no closing brace) completes with the error flag set, the
retained message reporting the missing closing brace, and the stylesheet
still holding selector a with property x mapped to 1. -/
theorem c6_truncated_input :
    parseOutcome 8 "a \x7b x: 1;" =
      some (true, "Expected '\x7d' after declaration block.", [("a", [("x", "1")])]) := rfl

/-- C7: once the error flag is set, the top-level parse loop never starts
another rule: whatever fuel remains, it returns immediately with the state
unchanged, so no rule after the one in progress can add or modify a
stylesheet entry, even if well-formed rules remain in the token stream. -/
theorem c7_error_flag_stops_top_loop (fuel : Nat) (s : PState)
    (h : s.hadError = true) : parseLoop fuel s = Res.done s := by
  cases fuel with
  | zero =>
    rw [parseLoop_zero]
    simp [h]
  | succ fuel =>
    rw [parseLoop_succ]
    simp [h]

/-- C7 witness: the theorem applied at a concrete errored state. -/
theorem c7_witness : parseLoop 5 c7demo = Res.done c7demo :=
  c7_error_flag_stops_top_loop 5 c7demo rfl

/-- C8: an expected-token check consumes exactly one token exactly when
the current token exists, has the expected type and is not the end-of-input
marker; in every other case it returns with the state — in particular the
position — completely unchanged, so no token is ever skipped. -/
theorem c8_match_consumes_one_or_none (t : TokenType) (s : PState) :
    ((mtch t s).1 = true ↔
      ∃ tok, s.tokens[s.position]? = some tok ∧ tok.type = t ∧
        tok.type ≠ TokenType.EndOfFile)
    ∧ ((mtch t s).1 = true → (mtch t s).2 = { s with position := s.position + 1 })
    ∧ ((mtch t s).1 = false → (mtch t s).2 = s) := by
  rcases mtch_cases t s with ⟨tok, h, ht, hne, heq⟩ | heq
  · rw [heq]
    refine ⟨⟨fun _ => ⟨tok, h, ht, hne⟩, fun _ => rfl⟩, fun _ => rfl, fun hf => ?_⟩
    exact absurd hf (by simp)
  · rw [heq]
    refine ⟨⟨fun hT => absurd hT (by simp), ?_⟩, fun hT => absurd hT (by simp), fun _ => rfl⟩
    rintro ⟨tok, h, ht, hne⟩
    have hcontra : mtch t s = (true, { s with position := s.position + 1 }) := by
      have hne' : ¬tok.type = TokenType.EndOfFile := hne
      simp [mtch, h, ht, hne', ht ▸ hne']
    rw [heq] at hcontra
    simp at hcontra

/-- C8 witness: on a state resting on an identifier token, matching
Identifier consumes exactly one token. -/
theorem c8_witness :
    (mtch TokenType.Identifier c8demo).2 = { c8demo with position := c8demo.position + 1 } :=
  (c8_match_consumes_one_or_none TokenType.Identifier c8demo).2.1 rfl

/-- C9: the store step of a declaration is an upsert.  With unique keys in
the stylesheet, storing keeps the keys unique (one entry per distinct
selector); the written selector maps to its previous table with the
property upserted (merge, not a second entry) while every other selector
is untouched; inside the table the written property now maps to the new
value (last write wins) while every other property is untouched. -/
theorem c9_upsert_semantics (sheet : Stylesheet) (sel prop v : String)
    (hnd : (sheet.map Prod.fst).Nodup) :
    ((setProp sel prop v sheet).map Prod.fst).Nodup
    ∧ alookup sel (setProp sel prop v sheet) =
        some (upsert prop v ((alookup sel sheet).getD []))
    ∧ (∀ sel', sel' ≠ sel → alookup sel' (setProp sel prop v sheet) = alookup sel' sheet)
    ∧ alookup prop (upsert prop v ((alookup sel sheet).getD [])) = some v
    ∧ (∀ prop', prop' ≠ prop →
        alookup prop' (upsert prop v ((alookup sel sheet).getD [])) =
          alookup prop' ((alookup sel sheet).getD [])) :=
  ⟨nodup_keys_upsert sel (upsert prop v ((alookup sel sheet).getD [])) sheet hnd,
    alookup_setProp_self sel prop v sheet,
    fun sel' h => alookup_upsert_ne sel sel' (upsert prop v ((alookup sel sheet).getD [])) sheet h,
    alookup_upsert_self prop v ((alookup sel sheet).getD []),
    fun prop' h => alookup_upsert_ne prop prop' v ((alookup sel sheet).getD []) h⟩

/-- C9 witness: the theorem applied to a concrete one-selector stylesheet,
re-declaring property x of selector a. -/
theorem c9_witness :
    alookup "a" (setProp "a" "x" "2" c9sheet) =
      some (upsert "x" "2" ((alookup "a" c9sheet).getD [])) :=
  (c9_upsert_semantics c9sheet "a" "x" "2" (by decide)).2.1

/-- C10 counterexample: a declaration entered with nothing yet consumed
does not insert anything — the property read `tokens.at(position - 1)`
faults (the embedding returns none for the out-of-range throw), refuting
that parsing a declaration always inserts a stylesheet entry. -/
theorem c10_counterexample : parseDeclaration "" c10cex = none := by
  decide

/-- C10 (amended): whenever at least one token has been consumed before
the declaration starts (and the cursor is within the token list), parsing
a declaration always returns and always inserts an entry for the selector,
even when every required-token check fails; and when the property-name
match fails, the key of the inserted entry is the text of the most
recently consumed token, not a property name taken from the input. -/
theorem c10_declaration_inserts_amended (sel : String) (s : PState)
    (h0 : s.position ≠ 0) (hlen : s.position ≤ s.tokens.length) :
    ∃ s', parseDeclaration sel s = some s' ∧
      (∃ prop v, alookup prop ((alookup sel s'.stylesheet).getD []) = some v ∧
        ((mtch TokenType.Identifier s).1 = false →
          ∃ tok, s.tokens[s.position - 1]? = some tok ∧ prop = tok.value)) := by
  rcases mtch_cases TokenType.Identifier s with ⟨tok, h, ht, hne, heq⟩ | heq
  · obtain ⟨v, s', hdf, hsheet⟩ :=
      declFinish_spec sel tok.value { s with position := s.position + 1 }
    refine ⟨s', ?_, tok.value, v, ?_, ?_⟩
    · simp [parseDeclaration, heq, atPrev, h, hdf]
    · rw [hsheet, alookup_setProp_self]
      simp [alookup_upsert_self]
    · intro hfalse
      rw [heq] at hfalse
      simp at hfalse
  · have hp : s.position - 1 < s.tokens.length := by omega
    obtain ⟨tokP, hsome⟩ : ∃ tokP, s.tokens[s.position - 1]? = some tokP :=
      ⟨_, List.getElem?_eq_getElem hp⟩
    obtain ⟨v, s', hdf, hsheet⟩ :=
      declFinish_spec sel tokP.value (makeError "Expected property name." s)
    refine ⟨s', ?_, tokP.value, v, ?_, fun _ => ⟨tokP, hsome, rfl⟩⟩
    · simp [parseDeclaration, heq, atPrev, makeError_position, makeError_tokens, h0,
        hsome, hdf]
    · rw [hsheet, alookup_setProp_self]
      simp [alookup_upsert_self]

/-- C10 witness: the amended theorem applied at the state of the
double-brace input where the property-name match fails after two consumed
tokens; the inserted key is the opening-brace lexeme. -/
theorem c10_witness :
    ∃ s', parseDeclaration "a" c1s2 = some s' ∧
      (∃ prop v, alookup prop ((alookup "a" s'.stylesheet).getD []) = some v ∧
        ((mtch TokenType.Identifier c1s2).1 = false →
          ∃ tok, c1s2.tokens[c1s2.position - 1]? = some tok ∧ prop = tok.value)) :=
  c10_declaration_inserts_amended "a" c1s2 (by decide) (by decide)

end CSS
